import Mathlib

/-!
Verification of the shift-style JSON-to-JSON transformation engine described by
the specification of this repository, together with the UI-level glue code of
`src/App.py` (input precedence and the fallback transformation handler).

The repository itself contains only the Streamlit UI (`src/App.py`); the
transformation engine it calls (`joltpy.Chainr`) is external.  Therefore the
engine below is modelled from the specification (sections 3, 4, 6, 7): each
`Modelled from the spec:` doc comment names the section of the specification
the definition embeds.  The UI-level definitions at the end are translated
directly from `src/App.py`.
-/

/-- Modelled from the spec (section 3): a JSON value is a tagged union of
null, boolean, number, string, ordered-key object, or sequence.  Key insertion
order is preserved (the spec keeps it for display and for deterministic
collision merging). -/
inductive Json where
  | null
  | bool (b : Bool)
  | num (n : Int)
  | str (s : String)
  | obj (fields : List (String × Json))
  | arr (items : List Json)

/-- Look up the value bound to key `s` in an ordered field list. -/
def lookupField : List (String × Json) → String → Option Json
  | [], _ => none
  | (k, v) :: fs, s => if k = s then some v else lookupField fs s

/-- Replace the binding of key `s` (keeping its position), or append a new
binding at the end when `s` is absent.  Mirrors the "purely additive" output
object discipline of the spec (section 4.4). -/
def setField : List (String × Json) → String → Json → List (String × Json)
  | [], s, v => [(s, v)]
  | (k, old) :: fs, s, v =>
    if k = s then (s, v) :: fs else (k, old) :: setField fs s v

/-- Split a character list at every occurrence of the separator. -/
def splitOnChar (sep : Char) : List Char → List (List Char)
  | [] => [[]]
  | c :: cs =>
    match splitOnChar sep cs with
    | [] => if c = sep then [[], []] else [[c]]
    | r :: rs => if c = sep then [] :: r :: rs else (c :: r) :: rs

/-- Decimal value of a digit character list (already validated by `isDigits`). -/
def natOfDigits (cs : List Char) : Nat :=
  cs.foldl (fun a c => a * 10 + (c.toNat - 48)) 0

/-- True when the character list is nonempty and all characters are digits. -/
def isDigits (cs : List Char) : Bool :=
  !cs.isEmpty && cs.all (·.isDigit)

/-- Modelled from the spec (section 3): a key pattern is a literal, a
composite with literal fragments around a single `*` (`affix`), the bare
single wildcard `*`, or the deep wildcard `**`.  Capture and reference tokens
inside key patterns are not modelled; no claim exercises them, and `build`
rejects them. -/
inductive KeyPattern where
  | lit (s : String)
  | affix (pre post : String)
  | star
  | deepStar
deriving DecidableEq

/-- Modelled from the spec (section 3): one segment of an output-path
template — a literal string, a capture token `&(levelsUp,captureIdx)`, or the
array-append marker `[]`.  Value reference tokens `@(...)` are not modelled
(no claim exercises them; `build` rejects them). -/
inductive TplSeg where
  | lit (s : String)
  | amp (levelsUp captureIdx : Nat)
  | append
deriving DecidableEq

/-- Modelled from the spec (section 3): a spec node is a leaf carrying one or
more output-path templates (fan-out), or a branch mapping key patterns to
child spec nodes.  Branch children are stored already sorted into the
evaluation order of section 4.2 by `build`. -/
inductive SpecNode where
  | leaf (templates : List (List TplSeg))
  | branch (children : List (KeyPattern × SpecNode))

/-- Parse the text after a leading `&`: bare `&`, `&n`, `&(l)` or `&(l,i)`;
fails on unbalanced parens or non-numeric indices (spec section 4.1). -/
def parseAmp (rest : List Char) : Except String (Nat × Nat) :=
  if rest.isEmpty then .ok (0, 0)
  else if isDigits rest then .ok (natOfDigits rest, 0)
  else match rest with
    | '(' :: more =>
      match more.getLast? with
      | some ')' =>
        match splitOnChar ',' more.dropLast with
        | [l] => if isDigits l then .ok (natOfDigits l, 0) else .error "non-numeric capture level"
        | [l, i] =>
          if isDigits l && isDigits i then .ok (natOfDigits l, natOfDigits i)
          else .error "non-numeric capture indices"
        | _ => .error "malformed capture reference"
      | _ => .error "unbalanced parens in capture reference"
    | _ => .error "malformed capture reference"

/-- Parse one dot-separated part of an output-path template. -/
def parseTplSeg (part : List Char) : Except String TplSeg :=
  match part with
  | ['[', ']'] => .ok .append
  | '&' :: rest => (parseAmp rest).map (fun li => .amp li.1 li.2)
  | '@' :: _ => .error "reference tokens are not modelled"
  | _ => .ok (.lit (String.mk part))

/-- Parse a list of dot-separated template parts. -/
def parseSegList : List (List Char) → Except String (List TplSeg)
  | [] => .ok []
  | p :: ps =>
    match parseTplSeg p with
    | .error e => .error e
    | .ok sg =>
      match parseSegList ps with
      | .error e => .error e
      | .ok sgs => .ok (sg :: sgs)

/-- Modelled from the spec (section 3): an output-path template is the
dot-separated sequence of segments of its raw string. -/
def parseTemplate (s : String) : Except String (List TplSeg) :=
  parseSegList (splitOnChar '.' s.data)

/-- Modelled from the spec (sections 3 and 4.1): parse a branch key string
into a key pattern.  A single `*` splits the string into the two affix
fragments; `*` and `**` are the wildcards; more than one `*` otherwise is
malformed. -/
def parseKeyPattern (s : String) : Except String KeyPattern :=
  let cs := s.data
  if cs.contains '&' || cs.contains '@' then
    .error "capture and reference tokens in key patterns are not modelled"
  else
    match splitOnChar '*' cs with
    | [_] => .ok (.lit s)
    | [[], []] => .ok .star
    | [[], [], []] => .ok .deepStar
    | [pre, post] => .ok (.affix (String.mk pre) (String.mk post))
    | _ => .error "malformed wildcard pattern"

/-- Modelled from the spec (section 4.2): evaluation precedence of a key
pattern at a branch level — literals first, then affix composites, then bare
`*`, then `**`. -/
def patRank : KeyPattern → Nat
  | .lit _ => 0
  | .affix _ _ => 1
  | .star => 2
  | .deepStar => 3

/-- Modelled from the spec (section 4.2): sort the children of a branch into
evaluation order — literal patterns first (in spec order), then affix
composites (spec order), then bare `*`, then `**`.  The sort is stable:
within one precedence class spec order is preserved. -/
def orderPatterns (cs : List (KeyPattern × SpecNode)) : List (KeyPattern × SpecNode) :=
  cs.filter (fun pc => patRank pc.1 == 0) ++ cs.filter (fun pc => patRank pc.1 == 1) ++
    cs.filter (fun pc => patRank pc.1 == 2) ++ cs.filter (fun pc => patRank pc.1 == 3)

mutual

/-- Modelled from the spec (section 4.1): parse one branch value — a string
is a single output-path template, a list of strings is a fan-out leaf, a
mapping is a nested branch, and anything else is a `SpecSyntaxError`. -/
def buildValue : Json → Except String SpecNode
  | .str s =>
    match parseTemplate s with
    | .error e => .error e
    | .ok t => .ok (.leaf [t])
  | .arr items =>
    match buildTemplates items with
    | .error e => .error e
    | .ok ts => .ok (.leaf ts)
  | .obj fields =>
    match buildChildren fields with
    | .error e => .error e
    | .ok cs => .ok (.branch (orderPatterns cs))
  | _ => .error "branch value must be a string, a list of strings, or a mapping"

/-- Parse the elements of a fan-out list; every element must be a string
template (spec section 4.1). -/
def buildTemplates : List Json → Except String (List (List TplSeg))
  | [] => .ok []
  | .str s :: rest =>
    match parseTemplate s with
    | .error e => .error e
    | .ok t =>
      match buildTemplates rest with
      | .error e => .error e
      | .ok ts => .ok (t :: ts)
  | _ :: _ => .error "branch value must be a string, a list of strings, or a mapping"

/-- Parse the ordered children of a branch mapping. -/
def buildChildren : List (String × Json) → Except String (List (KeyPattern × SpecNode))
  | [] => .ok []
  | (k, v) :: rest =>
    match parseKeyPattern k with
    | .error e => .error e
    | .ok p =>
      match buildValue v with
      | .error e => .error e
      | .ok c =>
        match buildChildren rest with
        | .error e => .error e
        | .ok cs => .ok ((p, c) :: cs)
end

/-- Modelled from the spec (section 4.1): `build` parses a raw spec document
into the typed spec tree, failing with a `SpecSyntaxError` message when the
top-level document is not a mapping or any branch value or pattern is
malformed.  It is a pure function of its input. -/
def build : Json → Except String SpecNode
  | .obj fields => buildValue (.obj fields)
  | _ => .error "top-level spec document must be a mapping"

/-- Enumerate sequence items as (decimal index, value) pairs starting at `i`. -/
def enumer (i : Nat) : List Json → List (String × Json)
  | [] => []
  | v :: xs => (Nat.repr i, v) :: enumer (i + 1) xs

/-- Modelled from the spec (section 4.3): the keyed entries of a source node —
the fields of an object, the index-keyed items of a sequence, and nothing for
a scalar (a scalar source under a branch spec node matches nothing). -/
def sourceEntries : Json → List (String × Json)
  | .obj fields => fields
  | .arr items => enumer 0 items
  | _ => []

/-- The value of a matched key at the current source node (`null` can only be
produced for keys that were not returned by the matcher). -/
def getKey (src : Json) (k : String) : Json :=
  (lookupField (sourceEntries src) k).getD .null

/-- Modelled from the spec (section 4.2): composite-pattern matching — a key
matches `pre*post` when it starts with `pre` and ends with `post` (beyond the
prefix); the captured part is the substring between them. -/
def affixCapture (pre post k : List Char) : Option (List Char) :=
  if pre.isPrefixOf k && post.isSuffixOf (k.drop pre.length) then
    some ((k.drop pre.length).take ((k.drop pre.length).length - post.length))
  else none

/-- Modelled from the spec (section 4.2): `match(pattern, availableKeys)`
returns the ordered matches of one key pattern against the keys still
available at this branch level, each paired with the literal parts it binds
for the match-context frame (full key first, then composite captures; the
deep wildcard binds the relative path, extended during descent). -/
def matchPattern : KeyPattern → List String → List (String × List String)
  | .lit s, avail => if s ∈ avail then [(s, [s])] else []
  | .affix pre post, avail =>
    avail.filterMap (fun k =>
      (affixCapture pre.data post.data k.data).map (fun mid => (k, [k, String.mk mid])))
  | .star, avail => avail.map (fun k => (k, [k]))
  | .deepStar, avail => avail.map (fun k => (k, [k]))

/-- Modelled from the spec (section 4.2): keys consumed by an earlier pattern
at the same branch level are excluded from the matches of later patterns. -/
def remainingKeys (avail : List String) (ms : List (String × List String)) : List String :=
  avail.filter (fun k => !(ms.any (fun m => m.1 = k)))

/-- Modelled from the spec (section 4.2): the per-level matching relation —
patterns already in evaluation order are matched one after another, each
consuming the keys it matches. -/
def levelMatches : List KeyPattern → List String → List (KeyPattern × List String)
  | [], _ => []
  | p :: ps, avail =>
    (p, (matchPattern p avail).map Prod.fst) ::
      levelMatches ps (remainingKeys avail (matchPattern p avail))

/-- Join path parts with dots (the captured form of a deep-wildcard path). -/
def dotted : List String → String
  | [] => ""
  | [p] => p
  | p :: ps => p ++ "." ++ dotted ps

mutual

/-- Collect a node and all of its descendants, each with its relative path
from the match origin (spec section 4.2, deep wildcard `**`). -/
def descendNode : Json → List String → List (List String × Json)
  | .obj fs, path => (path, .obj fs) :: descendFields fs path
  | .arr xs, path => (path, .arr xs) :: descendItems xs 0 path
  | j, path => [(path, j)]

/-- Descendants contributed by object fields. -/
def descendFields : List (String × Json) → List String → List (List String × Json)
  | [], _ => []
  | (k, v) :: fs, path => descendNode v (path ++ [k]) ++ descendFields fs path

/-- Descendants contributed by sequence items. -/
def descendItems : List Json → Nat → List String → List (List String × Json)
  | [], _, _ => []
  | v :: xs, i, path => descendNode v (path ++ [Nat.repr i]) ++ descendItems xs (i + 1) path

end

/-- A resolved output-path segment: an object key, a fixed array index, or
the array-append marker (spec sections 3 and 4.4 — a numeric segment
addresses an array). -/
inductive PathSeg where
  | okey (s : String)
  | aidx (n : Nat)
  | append
deriving DecidableEq

/-- Resolve one literal segment string: all-digit strings address an array
index, everything else an object key (spec section 4.4). -/
def segOfString (s : String) : PathSeg :=
  if isDigits s.data then .aidx (natOfDigits s.data) else .okey s

/-- Modelled from the spec (sections 3 and 4.3): resolve an output-path
template against the match context stack, substituting every `&` token with
the literal part bound `levelsUp` frames above the current level.  Resolution
fails (emitting no write) when a token addresses a missing frame or part. -/
def resolveSegs (stack : List (List String)) : List TplSeg → Option (List PathSeg)
  | [] => some []
  | .lit s :: rest => (resolveSegs stack rest).map (fun ps => segOfString s :: ps)
  | .append :: rest => (resolveSegs stack rest).map (fun ps => PathSeg.append :: ps)
  | .amp l i :: rest =>
    match stack[l]? with
    | none => none
    | some frame =>
      match frame[i]? with
      | none => none
      | some s => (resolveSegs stack rest).map (fun ps => segOfString s :: ps)

/-- Modelled from the spec (section 4.3): a leaf emits one write instruction
per successfully resolved template, carrying the current source value. -/
def resolveLeaf (stack : List (List String)) (v : Json) :
    List (List TplSeg) → List (List PathSeg × Json)
  | [] => []
  | t :: ts =>
    match resolveSegs stack t with
    | none => resolveLeaf stack v ts
    | some p => (p, v) :: resolveLeaf stack v ts

mutual

/-- Modelled from the spec (section 4.3): the recursive shift traversal.
`shift specNode sourceNode stack` walks the spec tree and source tree in
lockstep and returns the emitted write instructions in traversal order: a
leaf resolves its templates; a branch matches its (already ordered) key
patterns against the keys of the source node, consuming matched keys, and
recurses into every match with a new frame pushed onto the stack. -/
def shift : SpecNode → Json → List (List String) → List (List PathSeg × Json)
  | .leaf ts, src, stack => resolveLeaf stack src ts
  | .branch children, src, stack =>
    shiftChildren children ((sourceEntries src).map Prod.fst) src stack

/-- Process the branch children in evaluation order, threading the set of
still-unmatched keys (spec section 4.2 consumption rule).  For each matched
key, in match order, a frame is pushed and the child is entered depth-first;
the deep wildcard instead enters the child once per descendant of the matched
value, the frame binding the dotted relative path. -/
def shiftChildren :
    List (KeyPattern × SpecNode) → List String → Json → List (List String) →
      List (List PathSeg × Json)
  | [], _, _, _ => []
  | (p, c) :: rest, avail, src, stack =>
    ((matchPattern p avail).flatMap (fun m =>
      match p with
      | .deepStar =>
        (descendNode (getKey src m.1) [m.1]).flatMap
          (fun d => shift c d.2 ([dotted d.1] :: stack))
      | _ => shift c (getKey src m.1) (m.2 :: stack))) ++
      shiftChildren rest (remainingKeys avail (matchPattern p avail)) src stack

end

/-- Modelled from the spec (section 3): flatten one write for the collision
rule — a written sequence contributes its items, any other value itself. -/
def flatParts : Json → List Json
  | .arr xs => xs
  | v => [v]

/-- Modelled from the spec (sections 3 and 4.4): the collision merge — when a
write lands at a site already holding a value, the site becomes a sequence of
every written value in write order, each written sequence flattened one
level. -/
def collide (old v : Json) : Json :=
  .arr (flatParts old ++ flatParts v)

/-- The output tree builder error of the spec (section 7):
`PathTypeConflictError`. -/
inductive WriteError where
  | pathTypeConflict
deriving DecidableEq

/-- Modelled from the spec (section 4.4): `write outputTree path value` walks
the path from the root, creating an object container for a key segment and an
array container for an index or append segment when none exists; an existing
container of the wrong shape is a `PathTypeConflictError`, except that an
append marker reaching a scalar wraps it into a one-element sequence before
appending.  A fixed index may address an existing slot or the next free slot
of an array.  At the terminal segment the first write stores the value
directly and every later write triggers the collision merge. -/
def write : Option Json → List PathSeg → Json → Except WriteError Json
  | t, [], v =>
    match t with
    | none => .ok v
    | some old => .ok (collide old v)
  | t, .okey s :: rest, v =>
    match t with
    | none => (write none rest v).map (fun cv => .obj [(s, cv)])
    | some (.obj fields) =>
      (write (lookupField fields s) rest v).map (fun cv => .obj (setField fields s cv))
    | some _ => .error .pathTypeConflict
  | t, .aidx n :: rest, v =>
    match t with
    | none =>
      if n = 0 then (write none rest v).map (fun cv => .arr [cv])
      else .error .pathTypeConflict
    | some (.arr xs) =>
      if n < xs.length then (write xs[n]? rest v).map (fun cv => .arr (xs.set n cv))
      else if n = xs.length then (write none rest v).map (fun cv => .arr (xs ++ [cv]))
      else .error .pathTypeConflict
    | some _ => .error .pathTypeConflict
  | t, .append :: rest, v =>
    match t with
    | none => (write none rest v).map (fun cv => .arr [cv])
    | some (.arr xs) => (write none rest v).map (fun cv => .arr (xs ++ [cv]))
    | some (.obj _) => .error .pathTypeConflict
    | some old => (write none rest v).map (fun cv => .arr [old, cv])

/-- Address a path in a tree: a key segment reads an object field, an index
segment reads a sequence slot, and anything else (shape mismatch, append
marker, missing tree) addresses nothing. -/
def getPath : Option Json → List PathSeg → Option Json
  | t, [] => t
  | t, sg :: rest =>
    match t, sg with
    | some (.obj fields), .okey s => getPath (lookupField fields s) rest
    | some (.arr xs), .aidx n => getPath xs[n]? rest
    | _, _ => none

/-- Modelled from the spec (section 4.4): apply the write instructions in
traversal order to a growing output tree. -/
def applyWritesFrom : Json → List (List PathSeg × Json) → Except WriteError Json
  | t, [] => .ok t
  | t, (p, v) :: ws =>
    match write (some t) p v with
    | .error e => .error e
    | .ok t2 => applyWritesFrom t2 ws

/-- Modelled from the spec (sections 4.3 and 4.4): the output document of one
transformation call starts as an empty object and receives every emitted
write in traversal order. -/
def applyWrites (ws : List (List PathSeg × Json)) : Except WriteError Json :=
  applyWritesFrom (.obj []) ws

/-- The structured error of a whole `transform` call (spec section 7). -/
inductive TransformError where
  | specSyntax (msg : String)
  | pathTypeConflict
deriving DecidableEq

/-- Modelled from the spec (section 6): the primary operation
`transform(source, spec)` — build the spec tree, run the shift traversal, and
apply the emitted writes; it fails with a structured error and no partial
result when the spec is malformed or a write conflicts. -/
def transform (source specDoc : Json) : Except TransformError Json :=
  match build specDoc with
  | .error m => .error (.specSyntax m)
  | .ok sn =>
    match applyWrites (shift sn source []) with
    | .error _ => .error .pathTypeConflict
    | .ok out => .ok out

/-- Modelled from the spec (section 6): one entry of the on-the-wire spec
document — an object whose literal `operation` marker field names the
operation kind (only `shift` is modelled) and whose `spec` field holds the
spec tree. -/
def applyOperation (op doc : Json) : Except TransformError Json :=
  match op with
  | .obj fields =>
    match lookupField fields "operation" with
    | some (.str "shift") =>
      match lookupField fields "spec" with
      | some sp => transform doc sp
      | none => .error (.specSyntax "shift operation is missing its spec tree")
    | _ => .error (.specSyntax "unsupported operation")
  | _ => .error (.specSyntax "operation entry must be a mapping")

/-- Apply the operation entries in order, feeding each output to the next. -/
def chainrRun : List Json → Json → Except TransformError Json
  | [], doc => .ok doc
  | op :: ops, doc =>
    match applyOperation op doc with
    | .error e => .error e
    | .ok out => chainrRun ops out

/-- Modelled from the spec (section 6): the wire spec document is a JSON list
of operation entries applied in order (the `Chainr(spec).transform(source)`
call of `src/App.py`). -/
def chainrTransform (specWire source : Json) : Except TransformError Json :=
  match specWire with
  | .arr ops => chainrRun ops source
  | _ => .error (.specSyntax "chainr spec must be a list of operation entries")

/-- From `src/App.py` (`load_example_data`, lines 76-82): the example source
document. -/
def source_example : Json :=
  .obj [("user", .obj [
    ("firstName", .str "Alice"),
    ("lastName", .str "Smith"),
    ("location", .obj [("city", .str "Los Angeles"), ("state", .str "CA")])])]

/-- From `src/App.py` (`load_example_data`, lines 86-95): the spec tree of the
example shift operation. -/
def shift_spec_example : Json :=
  .obj [("user", .obj [
    ("firstName", .str "person.first"),
    ("lastName", .str "person.last"),
    ("location", .obj [
      ("city", .str "person.address.city"),
      ("state", .str "person.address.state")])])]

/-- From `src/App.py` (`load_example_data`, lines 83-97): the example JOLT
spec document — a one-element list holding a single shift operation entry. -/
def spec_example : Json :=
  .arr [.obj [("operation", .str "shift"), ("spec", shift_spec_example)]]

/-- The documented result of transforming the example source with the example
spec. -/
def transformed_example : Json :=
  .obj [("person", .obj [
    ("first", .str "Alice"),
    ("last", .str "Smith"),
    ("address", .obj [("city", .str "Los Angeles"), ("state", .str "CA")])])]

/-- Outcome of the Run Transformation handler of `src/App.py`: the rendered
result, or the generic error branch ("Transformation failed.") entered when
the transformation raises. -/
inductive RunOutcome where
  | success (result : Json)
  | failure

/-- From `src/App.py` line 136: `list(source.keys())` succeeds only when the
parsed source is a JSON object (a Python dict); on any other parsed value it
raises AttributeError, which the generic except branch turns into the error
outcome. -/
def sourceKeysPy : Json → Option (List String)
  | .obj fields => some (fields.map Prod.fst)
  | _ => none

/-- From `src/App.py` lines 132-136: with joltpy importable the handler runs
`Chainr(spec).transform(source)`; otherwise it builds the simulated stub from
the top-level keys of the source and ignores the spec entirely. -/
def runTransformation (joltAvailable : Bool) (source specWire : Json) : RunOutcome :=
  if joltAvailable then
    match chainrTransform specWire source with
    | .ok r => .success r
    | .error _ => .failure
  else
    match sourceKeysPy source with
    | some ks =>
      .success (.obj [("simulatedResult", .obj [
        ("originalKeys", .arr (ks.map .str)),
        ("transformed", .bool true)])])
    | none => .failure

/-- From `src/App.py` lines 105-108 and 112-115: the text handed to the
transformation for one input column — the pasted text-area content, unless a
file was uploaded, in which case the decoded UTF-8 file content replaces it. -/
def effectiveInputText (uploadedDecoded : Option String) (pasted : String) : String :=
  match uploadedDecoded with
  | some fileContent => fileContent
  | none => pasted

/-- True exactly for a string JSON value. -/
def isJsonStr : Json → Bool
  | .str _ => true
  | _ => false

mutual

/-- Decides whether a raw spec document contains a branch value that is
neither a string, nor a list of strings, nor a mapping (spec section 4.1). -/
def hasBadBranchValue : Json → Bool
  | .obj fields => badInFields fields
  | _ => false

/-- Bad branch value somewhere below one branch level. -/
def badInFields : List (String × Json) → Bool
  | [] => false
  | (_, v) :: fs => badBranchValue v || badInFields fs

/-- The branch value itself is bad, or contains a bad one below. -/
def badBranchValue : Json → Bool
  | .str _ => false
  | .arr items => !(items.all isJsonStr)
  | .obj fields => badInFields fields
  | _ => true

end

/-- True when spec building failed. -/
def isBuildError : Except String SpecNode → Bool
  | .error _ => true
  | .ok _ => false

/-- True when a transform call failed with the SpecSyntaxError variant. -/
def isSpecSyntaxError : Except TransformError Json → Bool
  | .error (.specSyntax _) => true
  | _ => false

/-- True for the append marker segment. -/
def segIsAppend : PathSeg → Bool
  | .append => true
  | _ => false

/-- True when a resolved output path uses no append marker (such a path
addresses one fixed site of the output tree). -/
def appendFree (p : List PathSeg) : Bool :=
  p.all (fun sg => !(segIsAppend sg))

/-- Boolean prefix test on resolved output paths. -/
def pathPre : List PathSeg → List PathSeg → Bool
  | [], _ => true
  | _ :: _, [] => false
  | a :: as, b :: bs => if a = b then pathPre as bs else false

/-- The values of the writes landing at exactly the output path `p`, in write
order. -/
def valuesAt (p : List PathSeg) (ws : List (List PathSeg × Json)) : List Json :=
  (ws.filter (fun w => w.1 = p)).map Prod.snd

/-- The value held at one site after a sequence of writes landed there: the
first write is stored as-is and every later one collision-merges (spec
section 3). -/
def siteFold : Option Json → List Json → Option Json
  | acc, [] => acc
  | acc, v :: vs =>
    siteFold (some (match acc with
      | none => v
      | some old => collide old v)) vs

/-- True for a name that is a plain literal in every role the flat-rename
spec uses it: it parses as a literal key pattern, as a one-segment literal
template, and resolves to an object-key segment (it is not all digits). -/
def plainName (s : String) : Bool :=
  (match parseKeyPattern s with
   | .ok (.lit s2) => decide (s2 = s)
   | _ => false) &&
  (match parseTemplate s with
   | .ok [.lit s2] => decide (s2 = s)
   | _ => false) &&
  (match segOfString s with
   | .okey s2 => decide (s2 = s)
   | _ => false)

/-- C1: for the documented example input, the transformation maps the example
source document under the example shift spec (renaming `user.firstName` to
`person.first`, `user.lastName` to `person.last`, `user.location.city` to
`person.address.city` and `user.location.state` to `person.address.state`) to
exactly the documented person document. -/
theorem claim_C1_example_transformation :
    chainrTransform spec_example source_example = .ok transformed_example ∧
    transform source_example shift_spec_example = .ok transformed_example :=
  ⟨rfl, rfl⟩

/-- C6: determinism — the transformation is a pure function of its two
inputs: two calls with the same source and spec produce identical output,
both for a single shift `transform` and for the full chainr pipeline. -/
theorem claim_C6_determinism :
    ∀ (src1 src2 spec1 spec2 : Json), src1 = src2 → spec1 = spec2 →
      chainrTransform spec1 src1 = chainrTransform spec2 src2 ∧
      transform src1 spec1 = transform src2 spec2 := by
  intro src1 src2 spec1 spec2 hs hp
  subst hs
  subst hp
  exact ⟨rfl, rfl⟩

/-- C6 witness: the determinism theorem applied to the example source and
spec. -/
theorem claim_C6_determinism_witness :
    chainrTransform spec_example source_example = chainrTransform spec_example source_example ∧
    transform source_example spec_example = transform source_example spec_example :=
  claim_C6_determinism source_example source_example spec_example spec_example rfl rfl

/-- C8: the on-the-wire spec document is JSON in which a single shift
operation is an object with the fixed literal marker field
`"operation": "shift"` and a nested `"spec"` field holding the spec tree; the
example spec built by `load_example_data` has exactly this shape, and an
entry of this shape is interpreted by running the shift transform of its spec
tree on the current document. -/
theorem claim_C8_wire_format :
    spec_example = .arr [.obj [("operation", .str "shift"), ("spec", shift_spec_example)]] ∧
    (∀ doc, applyOperation (.obj [("operation", .str "shift"), ("spec", shift_spec_example)]) doc =
      transform doc shift_spec_example) :=
  ⟨rfl, fun _ => rfl⟩

/-- C9 counterexample: a successfully parsed source that is a JSON list (not
an object) makes `list(source.keys())` raise AttributeError, so with joltpy
unavailable the handler lands in the generic failure branch instead of
returning the simulated stub. -/
theorem claim_C9_counterexample :
    runTransformation false (.arr [.num 1, .num 2]) (.arr []) = .failure ∧
    ∀ r, runTransformation false (.arr [.num 1, .num 2]) (.arr []) ≠ .success r := by
  refine ⟨rfl, ?_⟩
  intro r h
  exact RunOutcome.noConfusion h

/-- C9 amended: for every successfully parsed source that is a JSON object,
when joltpy is not importable the handler ignores the spec entirely and
returns the fixed stub holding the list of the source top-level keys. -/
theorem claim_C9_amended_stub_result :
    ∀ (fields : List (String × Json)) (specWire : Json),
      runTransformation false (.obj fields) specWire =
        .success (.obj [("simulatedResult", .obj [
          ("originalKeys", .arr ((fields.map Prod.fst).map .str)),
          ("transformed", .bool true)])]) :=
  fun _ _ => rfl

/-- C10: for both the source and the spec input column, whenever a file is
uploaded its decoded UTF-8 content replaces the pasted text-area content as
the value passed on to the transformation. -/
theorem claim_C10_upload_precedence :
    ∀ (fileContent pasted : String),
      effectiveInputText (some fileContent) pasted = fileContent :=
  fun _ _ => rfl

theorem matchPattern_nil : ∀ p, matchPattern p [] = [] := by
  intro p
  cases p <;> simp [matchPattern]

theorem remainingKeys_nil_matches : ∀ avail, remainingKeys avail [] = avail := by
  intro avail
  simp [remainingKeys]

theorem shiftChildren_nil_avail :
    ∀ cs src stack, shiftChildren cs [] src stack = [] := by
  intro cs src stack
  induction cs with
  | nil => simp [shiftChildren]
  | cons pc rest ih =>
    obtain ⟨p, c⟩ := pc
    simp [shiftChildren, matchPattern_nil, remainingKeys_nil_matches, ih]

/-- C3: silent no-match — a branch spec node meeting a source with no keyed
entries (in particular a scalar, whose shape does not fit a branch) produces
no writes; a pattern matching nothing at a level contributes no writes and
leaves the remaining patterns untouched; a literal pattern naming an absent
key matches nothing; and concretely, a spec referencing a field absent from
the source returns a result with that field omitted instead of an error. -/
theorem claim_C3_silent_no_match :
    (∀ children src stack, sourceEntries src = [] →
        shift (.branch children) src stack = []) ∧
    (∀ p c rest avail src stack, matchPattern p avail = [] →
        shiftChildren ((p, c) :: rest) avail src stack =
          shiftChildren rest avail src stack) ∧
    (∀ k avail, k ∉ avail → matchPattern (.lit k) avail = []) ∧
    transform (.obj [("present", .num 1)]) (.obj [("missing", .str "out")]) =
      .ok (.obj []) := by
  refine ⟨?_, ?_, ?_, rfl⟩
  · intro children src stack h
    simp [shift, h, shiftChildren_nil_avail]
  · intro p c rest avail src stack h
    simp [shiftChildren, h, remainingKeys_nil_matches]
  · intro k avail h
    simp [matchPattern, h]

/-- C3 witness: the no-match theorem applied to a scalar source under a
branch, and to a literal pattern naming a key absent from the source. -/
theorem claim_C3_silent_no_match_witness :
    shift (.branch [(.lit "a", .leaf [[.lit "x"]])]) (.str "scalar") [] = [] ∧
    shiftChildren [(.lit "missing", .leaf [[.lit "x"]]), (.lit "present", .leaf [[.lit "y"]])]
        ["present"] (.obj [("present", .num 1)]) [] =
      shiftChildren [(.lit "present", .leaf [[.lit "y"]])]
        ["present"] (.obj [("present", .num 1)]) [] ∧
    matchPattern (.lit "missing") ["present"] = [] :=
  ⟨claim_C3_silent_no_match.1 _ _ _ rfl,
   claim_C3_silent_no_match.2.1 _ _ _ _ _ _ (by decide),
   claim_C3_silent_no_match.2.2.1 _ _ (by decide)⟩

theorem buildTemplates_error_of_bad :
    ∀ items, items.all isJsonStr = false → ∃ m, buildTemplates items = .error m := by
  intro items
  induction items with
  | nil => intro h; simp at h
  | cons it rest ih =>
    intro h
    cases it with
    | str s =>
      have hr : rest.all isJsonStr = false := by simpa [isJsonStr] using h
      obtain ⟨m, hm⟩ := ih hr
      rcases hpt : parseTemplate s with e | t
      · exact ⟨e, by simp [buildTemplates, hpt]⟩
      · exact ⟨m, by simp [buildTemplates, hpt, hm]⟩
    | null => exact ⟨_, rfl⟩
    | bool b => exact ⟨_, rfl⟩
    | num n => exact ⟨_, rfl⟩
    | obj fs => exact ⟨_, rfl⟩
    | arr xs => exact ⟨_, rfl⟩

theorem badBranchValue_buildValue_error :
    ∀ v, badBranchValue v = true → ∃ m, buildValue v = .error m := by
  have H := badBranchValue.induct
    (fun fs => badInFields fs = true → ∃ m, buildChildren fs = .error m)
    (fun v => badBranchValue v = true → ∃ m, buildValue v = .error m)
  apply H
  · intro s h; simp [badBranchValue] at h
  · intro items h
    obtain ⟨m, hm⟩ := buildTemplates_error_of_bad items (by simpa [badBranchValue] using h)
    exact ⟨m, by simp [buildValue, hm]⟩
  · intro fields ih h
    obtain ⟨m, hm⟩ := ih (by simpa [badBranchValue] using h)
    exact ⟨m, by simp [buildValue, hm]⟩
  · intro t h1 h2 h3 _
    cases t with
    | str s => exact (h1 s rfl).elim
    | arr items => exact (h2 items rfl).elim
    | obj fields => exact (h3 fields rfl).elim
    | null => exact ⟨_, rfl⟩
    | bool b => exact ⟨_, rfl⟩
    | num n => exact ⟨_, rfl⟩
  · intro h; simp [badInFields] at h
  · intro k v fs ih2 ih1 h
    rcases hpk : parseKeyPattern k with e | p
    · exact ⟨e, by simp [buildChildren, hpk]⟩
    · have hor : badBranchValue v = true ∨ badInFields fs = true := by
        have hh : (badBranchValue v || badInFields fs) = true := by
          simpa [badInFields] using h
        simpa using hh
      rcases hor with hv | hfs
      · obtain ⟨m, hm⟩ := ih2 hv
        exact ⟨m, by simp [buildChildren, hpk, hm]⟩
      · rcases hbv : buildValue v with e2 | c
        · exact ⟨e2, by simp [buildChildren, hpk, hbv]⟩
        · obtain ⟨m, hm⟩ := ih1 hfs
          exact ⟨m, by simp [buildChildren, hpk, hbv, hm]⟩

/-- C4: a spec document containing a branch value that is neither a string,
nor a list of strings, nor a mapping makes spec building fail, and
`transform` then fails with the SpecSyntaxError variant and no partial result
(the error is the whole outcome); spec building is a pure function of its
input; and concretely a numeric branch value produces exactly the
SpecSyntaxError message. -/
theorem claim_C4_malformed_spec :
    (∀ specDoc, hasBadBranchValue specDoc = true →
        isBuildError (build specDoc) = true ∧
        ∀ source, isSpecSyntaxError (transform source specDoc) = true) ∧
    (∀ s1 s2 : Json, s1 = s2 → build s1 = build s2) ∧
    transform (.obj [("a", .num 1)]) (.obj [("a", .num 5)]) =
      .error (.specSyntax "branch value must be a string, a list of strings, or a mapping") := by
  refine ⟨?_, fun s1 s2 h => by rw [h], rfl⟩
  intro specDoc h
  cases specDoc with
  | obj fields =>
    obtain ⟨m, hm⟩ :=
      badBranchValue_buildValue_error (.obj fields)
        (by simpa [hasBadBranchValue, badBranchValue] using h)
    constructor
    · simp [build, isBuildError, hm]
    · intro source
      simp [transform, build, hm, isSpecSyntaxError]
  | null => exact absurd h (by simp [hasBadBranchValue])
  | bool b => exact absurd h (by simp [hasBadBranchValue])
  | num n => exact absurd h (by simp [hasBadBranchValue])
  | str s => exact absurd h (by simp [hasBadBranchValue])
  | arr items => exact absurd h (by simp [hasBadBranchValue])

/-- C4 witness: the malformed-spec theorem applied to the Scenario C spec
whose branch value is the number 5. -/
theorem claim_C4_malformed_spec_witness :
    isBuildError (build (.obj [("a", .num 5)])) = true ∧
    isSpecSyntaxError (transform (.obj [("a", .num 1)]) (.obj [("a", .num 5)])) = true :=
  ⟨(claim_C4_malformed_spec.1 _ (by decide)).1,
   (claim_C4_malformed_spec.1 _ (by decide)).2 _⟩

theorem patRank_cases (p : KeyPattern) :
    patRank p = 0 ∨ patRank p = 1 ∨ patRank p = 2 ∨ patRank p = 3 := by
  cases p <;> simp [patRank]

theorem mem_rankFilter_map (cs : List (KeyPattern × SpecNode)) (r : Nat) :
    ∀ x ∈ (cs.filter (fun pc => patRank pc.1 == r)).map (fun pc => patRank pc.1), x = r := by
  intro x hx
  simp only [List.mem_map, List.mem_filter] at hx
  obtain ⟨pc, ⟨_, hr⟩, hx⟩ := hx
  subst hx
  simpa using hr

theorem pairwise_le_of_all_eq (l : List Nat) (r : Nat) (h : ∀ x ∈ l, x = r) :
    l.Pairwise (· ≤ ·) := by
  induction l with
  | nil => exact List.Pairwise.nil
  | cons a t ih =>
    constructor
    · intro b hb
      rw [h a (List.mem_cons_self a t), h b (List.mem_cons.mpr (Or.inr hb))]
    · exact ih (fun x hx => h x (List.mem_cons.mpr (Or.inr hx)))

theorem orderPatterns_rank_sorted (cs : List (KeyPattern × SpecNode)) :
    ((orderPatterns cs).map (fun pc => patRank pc.1)).Pairwise (· ≤ ·) := by
  simp only [orderPatterns, List.map_append]
  refine List.pairwise_append.mpr
    ⟨List.pairwise_append.mpr
      ⟨List.pairwise_append.mpr
        ⟨pairwise_le_of_all_eq _ 0 (mem_rankFilter_map cs 0),
         pairwise_le_of_all_eq _ 1 (mem_rankFilter_map cs 1), ?_⟩,
       pairwise_le_of_all_eq _ 2 (mem_rankFilter_map cs 2), ?_⟩,
     pairwise_le_of_all_eq _ 3 (mem_rankFilter_map cs 3), ?_⟩
  · intro a ha b hb
    have h1 := mem_rankFilter_map cs 0 a ha
    omega
  · intro a ha b hb
    have h2 := mem_rankFilter_map cs 2 b hb
    rcases List.mem_append.mp ha with h | h
    · have h1 := mem_rankFilter_map cs 0 a h
      omega
    · have h1 := mem_rankFilter_map cs 1 a h
      omega
  · intro a ha b hb
    have h2 := mem_rankFilter_map cs 3 b hb
    rcases List.mem_append.mp ha with h | h
    · rcases List.mem_append.mp h with h' | h'
      · have h1 := mem_rankFilter_map cs 0 a h'
        omega
      · have h1 := mem_rankFilter_map cs 1 a h'
        omega
    · have h1 := mem_rankFilter_map cs 2 a h
      omega

theorem rankFilter_rankFilter (cs : List (KeyPattern × SpecNode)) (i r : Nat) :
    (cs.filter (fun pc => patRank pc.1 == i)).filter (fun pc => patRank pc.1 == r) =
      if r = i then cs.filter (fun pc => patRank pc.1 == r) else [] := by
  by_cases h : r = i
  · subst h
    simp [List.filter_filter]
  · rw [if_neg h, List.filter_filter]
    apply List.filter_eq_nil_iff.mpr
    intro pc _
    simp only [Bool.and_eq_true, beq_iff_eq]
    rintro ⟨h1, h2⟩
    exact h (h1.symm.trans h2)

theorem orderPatterns_rank_stable (cs : List (KeyPattern × SpecNode)) (r : Nat) :
    (orderPatterns cs).filter (fun pc => patRank pc.1 == r) =
      cs.filter (fun pc => patRank pc.1 == r) := by
  simp only [orderPatterns, List.filter_append, rankFilter_rankFilter]
  by_cases h0 : r = 0
  · subst h0; simp
  by_cases h1 : r = 1
  · subst h1; simp
  by_cases h2 : r = 2
  · subst h2; simp
  by_cases h3 : r = 3
  · subst h3; simp
  rw [if_neg h0, if_neg h1, if_neg h2, if_neg h3]
  simp only [List.append_nil, List.nil_append]
  symm
  apply List.filter_eq_nil_iff.mpr
  intro pc _
  simp only [beq_iff_eq]
  intro hr
  rcases patRank_cases pc.1 with h | h | h | h <;> omega

theorem matchPattern_fst_mem (p : KeyPattern) (avail : List String) :
    ∀ k ∈ (matchPattern p avail).map Prod.fst, k ∈ avail := by
  intro k hk
  cases p with
  | lit s =>
    by_cases h : s ∈ avail
    · simp [matchPattern, h] at hk
      subst hk
      exact h
    · simp [matchPattern, h] at hk
  | affix pre post =>
    simp only [matchPattern, List.map_filterMap, Option.map_map] at hk
    obtain ⟨a, ha, hfa⟩ := List.mem_filterMap.mp hk
    obtain ⟨mid, _, h2⟩ := Option.map_eq_some'.mp hfa
    simpa [← h2] using ha
  | star => simpa [matchPattern, List.map_map, Function.comp] using hk
  | deepStar => simpa [matchPattern, List.map_map, Function.comp] using hk

theorem matchPattern_fst_nodup (p : KeyPattern) (avail : List String)
    (h : avail.Nodup) : ((matchPattern p avail).map Prod.fst).Nodup := by
  cases p with
  | lit s => by_cases hs : s ∈ avail <;> simp [matchPattern, hs]
  | affix pre post =>
    rw [matchPattern, List.map_filterMap]
    refine List.Nodup.filterMap ?_ h
    intro a a' b hb hb'
    simp only [Option.map_map, Option.mem_def, Option.map_eq_some'] at hb hb'
    obtain ⟨_, _, h1⟩ := hb
    obtain ⟨_, _, h2⟩ := hb'
    simp only [Function.comp] at h1 h2
    exact h1.trans h2.symm
  | star =>
    rw [matchPattern, List.map_map]
    have hcomp : (Prod.fst ∘ fun k : String => (k, [k])) = fun k => k := rfl
    rw [hcomp]
    simpa using h
  | deepStar =>
    rw [matchPattern, List.map_map]
    have hcomp : (Prod.fst ∘ fun k : String => (k, [k])) = fun k => k := rfl
    rw [hcomp]
    simpa using h

theorem remainingKeys_nodup (avail : List String) (ms : List (String × List String))
    (h : avail.Nodup) : (remainingKeys avail ms).Nodup := by
  unfold remainingKeys
  exact (List.filter_sublist avail).nodup h

theorem remainingKeys_subset (avail : List String) (ms : List (String × List String)) :
    ∀ k ∈ remainingKeys avail ms, k ∈ avail := by
  intro k hk
  unfold remainingKeys at hk
  exact (List.mem_filter.mp hk).1

theorem not_mem_remainingKeys (avail : List String) (ms : List (String × List String))
    (m : String × List String) (hm : m ∈ ms) : m.1 ∉ remainingKeys avail ms := by
  intro hk
  unfold remainingKeys at hk
  rw [List.mem_filter] at hk
  have h2 : ms.any (fun m2 => decide (m2.1 = m.1)) = false := by
    simpa using hk.2
  have h3 := List.any_eq_false.mp h2 m hm
  simp at h3

theorem levelMatches_keys_mem :
    ∀ (ps : List KeyPattern) (avail : List String) (k : String),
      k ∈ (levelMatches ps avail).flatMap Prod.snd → k ∈ avail := by
  intro ps
  induction ps with
  | nil => intro avail k h; simp [levelMatches] at h
  | cons p ps ih =>
    intro avail k h
    simp only [levelMatches, List.flatMap_cons] at h
    rcases List.mem_append.mp h with h1 | h2
    · exact matchPattern_fst_mem p avail k h1
    · exact remainingKeys_subset _ _ _ (ih _ _ h2)

theorem levelMatches_count_le_one :
    ∀ (ps : List KeyPattern) (avail : List String), avail.Nodup →
      ∀ k, ((levelMatches ps avail).flatMap Prod.snd).count k ≤ 1 := by
  intro ps
  induction ps with
  | nil => intro avail _ k; simp [levelMatches]
  | cons p ps ih =>
    intro avail h k
    simp only [levelMatches, List.flatMap_cons, List.count_append]
    by_cases hk : k ∈ (matchPattern p avail).map Prod.fst
    · have hc1 : ((matchPattern p avail).map Prod.fst).count k ≤ 1 :=
        List.nodup_iff_count_le_one.mp (matchPattern_fst_nodup p avail h) k
      have hc2 :
          ((levelMatches ps (remainingKeys avail (matchPattern p avail))).flatMap
            Prod.snd).count k = 0 := by
        apply List.count_eq_zero_of_not_mem
        intro hmem
        have hrem := levelMatches_keys_mem ps _ k hmem
        obtain ⟨m, hm, hfst⟩ := List.mem_map.mp hk
        exact not_mem_remainingKeys avail _ m hm (hfst ▸ hrem)
      omega
    · have hc1 : ((matchPattern p avail).map Prod.fst).count k = 0 :=
        List.count_eq_zero_of_not_mem hk
      have hc2 := ih (remainingKeys avail (matchPattern p avail))
        (remainingKeys_nodup _ _ h) k
      omega

/-- C5: at every branch level, key patterns are evaluated literals first (in
spec order), then affix composites (spec order), then bare single wildcard,
then deep wildcard — the built branch stores its children in exactly that
stable precedence order — and each source key is matched by at most one
pattern at the level: a key consumed by an earlier pattern is excluded from
the matches of every later pattern. -/
theorem claim_C5_pattern_order_and_consumption :
    (∀ fields cs, buildChildren fields = .ok cs →
        buildValue (.obj fields) = .ok (.branch (orderPatterns cs))) ∧
    (∀ cs : List (KeyPattern × SpecNode),
        ((orderPatterns cs).map (fun pc => patRank pc.1)).Pairwise (· ≤ ·)) ∧
    (∀ (cs : List (KeyPattern × SpecNode)) (r : Nat),
        (orderPatterns cs).filter (fun pc => patRank pc.1 == r) =
          cs.filter (fun pc => patRank pc.1 == r)) ∧
    (∀ (ps : List KeyPattern) (avail : List String), avail.Nodup →
        ∀ k, ((levelMatches ps avail).flatMap Prod.snd).count k ≤ 1) := by
  refine ⟨?_, orderPatterns_rank_sorted, orderPatterns_rank_stable, levelMatches_count_le_one⟩
  intro fields cs h
  simp [buildValue, h]

/-- C5 witness: a spec level written wildcard-first is still evaluated
literal-first, and on duplicate-free keys no key is matched twice. -/
theorem claim_C5_pattern_order_and_consumption_witness :
    buildValue (.obj [("*", .str "w"), ("a", .str "x")]) =
      .ok (.branch (orderPatterns
        [(.star, .leaf [[.lit "w"]]), (.lit "a", .leaf [[.lit "x"]])])) ∧
    ((levelMatches [.star, .lit "a"] ["a", "b"]).flatMap Prod.snd).count "a" ≤ 1 :=
  ⟨claim_C5_pattern_order_and_consumption.1 _ _ rfl,
   claim_C5_pattern_order_and_consumption.2.2.2 [.star, .lit "a"] ["a", "b"] (by decide) "a"⟩

theorem except_map_ok {ε α β : Type} {f : α → β} {x : Except ε α} {c : β}
    (h : x.map f = .ok c) : ∃ b, x = .ok b ∧ c = f b := by
  cases x with
  | error e => simp [Except.map] at h
  | ok b =>
    refine ⟨b, rfl, ?_⟩
    simp [Except.map] at h
    exact h.symm

theorem getPath_none : ∀ p : List PathSeg, getPath none p = none := by
  intro p
  cases p with
  | nil => rfl
  | cons sg rest => rfl

theorem lookup_setField_same :
    ∀ (fields : List (String × Json)) (s : String) (cv : Json),
      lookupField (setField fields s cv) s = some cv := by
  intro fields s cv
  induction fields with
  | nil => simp [setField, lookupField]
  | cons kv fs ih =>
    obtain ⟨k, old⟩ := kv
    by_cases hk : k = s
    · subst hk
      simp [setField, lookupField]
    · simp [setField, lookupField, hk, ih]

theorem lookup_setField_other :
    ∀ (fields : List (String × Json)) (s s2 : String) (cv : Json), s2 ≠ s →
      lookupField (setField fields s cv) s2 = lookupField fields s2 := by
  intro fields s s2 cv hne
  induction fields with
  | nil => simp [setField, lookupField, Ne.symm hne]
  | cons kv fs ih =>
    obtain ⟨k, old⟩ := kv
    by_cases hk : k = s
    · subst hk
      simp [setField, lookupField, Ne.symm hne]
    · by_cases hk2 : k = s2 <;> simp [setField, lookupField, hk, hk2, ih, hne]

theorem appendFree_cons {sg : PathSeg} {rest : List PathSeg}
    (h : appendFree (sg :: rest) = true) : appendFree rest = true := by
  simp [appendFree] at h ⊢
  exact h.2

theorem write_ok_getPath_same :
    ∀ (p : List PathSeg), appendFree p = true →
      ∀ (t : Option Json) (v t2 : Json), write t p v = .ok t2 →
        getPath (some t2) p = siteFold (getPath t p) [v] := by
  intro p
  induction p with
  | nil =>
    intro _ t v t2 h
    cases t with
    | none =>
      simp [write] at h
      subst h
      rfl
    | some old =>
      simp [write] at h
      subst h
      rfl
  | cons sg rest ih =>
    intro hap t v t2 h
    have hapr : appendFree rest = true := appendFree_cons hap
    cases sg with
    | append => simp [appendFree, segIsAppend] at hap
    | okey s =>
      cases t with
      | none =>
        simp only [write] at h
        obtain ⟨cv, hcv, ht2⟩ := except_map_ok h
        subst ht2
        have hl : lookupField [(s, cv)] s = some cv := by simp [lookupField]
        simp only [getPath, hl]
        rw [ih hapr none v cv hcv]
        simp [getPath_none]
      | some j =>
        cases j with
        | obj fields =>
          simp only [write] at h
          obtain ⟨cv, hcv, ht2⟩ := except_map_ok h
          subst ht2
          simp only [getPath, lookup_setField_same]
          rw [ih hapr (lookupField fields s) v cv hcv]
        | null => simp [write] at h
        | bool b => simp [write] at h
        | num n => simp [write] at h
        | str s2 => simp [write] at h
        | arr xs => simp [write] at h
    | aidx n =>
      cases t with
      | none =>
        simp only [write] at h
        by_cases hn : n = 0
        · subst hn
          rw [if_pos rfl] at h
          obtain ⟨cv, hcv, ht2⟩ := except_map_ok h
          subst ht2
          simp only [getPath, List.getElem?_cons_zero]
          rw [ih hapr none v cv hcv]
          simp [getPath_none]
        · rw [if_neg hn] at h
          simp at h
      | some j =>
        cases j with
        | arr xs =>
          simp only [write] at h
          by_cases hlt : n < xs.length
          · rw [if_pos hlt] at h
            obtain ⟨cv, hcv, ht2⟩ := except_map_ok h
            subst ht2
            simp only [getPath, List.getElem?_set_self hlt]
            rw [ih hapr xs[n]? v cv hcv]
          · rw [if_neg hlt] at h
            by_cases heq : n = xs.length
            · rw [if_pos heq] at h
              obtain ⟨cv, hcv, ht2⟩ := except_map_ok h
              subst ht2
              have hidx : (xs ++ [cv])[n]? = some cv := by
                subst heq
                exact List.getElem?_concat_length xs cv
              have hnone : xs[n]? = none := List.getElem?_eq_none (le_of_eq heq.symm)
              simp only [getPath, hidx, hnone]
              rw [ih hapr none v cv hcv]
            · rw [if_neg heq] at h
              simp at h
        | null => simp [write] at h
        | bool b => simp [write] at h
        | num n2 => simp [write] at h
        | str s2 => simp [write] at h
        | obj fs => simp [write] at h

theorem write_ok_getPath_other :
    ∀ (q : List PathSeg) (t : Option Json) (v : Json) (t2 : Json) (p : List PathSeg),
      write t q v = .ok t2 → appendFree q = true →
      pathPre q p = false → pathPre p q = false →
      getPath (some t2) p = getPath t p := by
  intro q
  induction q with
  | nil =>
    intro t v t2 p h hap hqp hpq
    simp [pathPre] at hqp
  | cons qs qrest ih =>
    intro t v t2 p h hap hqp hpq
    cases p with
    | nil => simp [pathPre] at hpq
    | cons ps prest =>
      by_cases hseg : qs = ps
      · subst hseg
        have hqp2 : pathPre qrest prest = false := by simpa [pathPre] using hqp
        have hpq2 : pathPre prest qrest = false := by simpa [pathPre] using hpq
        cases qs with
        | append => simp [appendFree, segIsAppend] at hap
        | okey s =>
          cases t with
          | none =>
            simp only [write] at h
            obtain ⟨cv, hcv, ht2⟩ := except_map_ok h
            subst ht2
            have hl : lookupField [(s, cv)] s = some cv := by simp [lookupField]
            simp only [getPath, hl]
            rw [ih none v cv prest hcv (appendFree_cons hap) hqp2 hpq2]
            simp [getPath_none]
          | some j =>
            cases j with
            | obj fields =>
              simp only [write] at h
              obtain ⟨cv, hcv, ht2⟩ := except_map_ok h
              subst ht2
              simp only [getPath, lookup_setField_same]
              exact ih (lookupField fields s) v cv prest hcv (appendFree_cons hap) hqp2 hpq2
            | null => simp [write] at h
            | bool b => simp [write] at h
            | num n => simp [write] at h
            | str s2 => simp [write] at h
            | arr xs => simp [write] at h
        | aidx n =>
          cases t with
          | none =>
            simp only [write] at h
            by_cases hn : n = 0
            · subst hn
              rw [if_pos rfl] at h
              obtain ⟨cv, hcv, ht2⟩ := except_map_ok h
              subst ht2
              simp only [getPath, List.getElem?_cons_zero]
              rw [ih none v cv prest hcv (appendFree_cons hap) hqp2 hpq2]
              simp [getPath_none]
            · rw [if_neg hn] at h
              simp at h
          | some j =>
            cases j with
            | arr xs =>
              simp only [write] at h
              by_cases hlt : n < xs.length
              · rw [if_pos hlt] at h
                obtain ⟨cv, hcv, ht2⟩ := except_map_ok h
                subst ht2
                simp only [getPath, List.getElem?_set_self hlt]
                exact ih xs[n]? v cv prest hcv (appendFree_cons hap) hqp2 hpq2
              · rw [if_neg hlt] at h
                by_cases heq : n = xs.length
                · rw [if_pos heq] at h
                  obtain ⟨cv, hcv, ht2⟩ := except_map_ok h
                  subst ht2
                  have hidx : (xs ++ [cv])[n]? = some cv := by
                    subst heq
                    exact List.getElem?_concat_length xs cv
                  have hnone : xs[n]? = none := List.getElem?_eq_none (le_of_eq heq.symm)
                  simp only [getPath, hidx, hnone]
                  rw [ih none v cv prest hcv (appendFree_cons hap) hqp2 hpq2]
                · rw [if_neg heq] at h
                  simp at h
            | null => simp [write] at h
            | bool b => simp [write] at h
            | num n2 => simp [write] at h
            | str s2 => simp [write] at h
            | obj fs => simp [write] at h
      · cases qs with
        | append => simp [appendFree, segIsAppend] at hap
        | okey s =>
          cases t with
          | none =>
            simp only [write] at h
            obtain ⟨cv, hcv, ht2⟩ := except_map_ok h
            subst ht2
            cases ps with
            | okey s2 =>
              have hne : ¬s = s2 := fun hh => hseg (congrArg PathSeg.okey hh)
              have hl : lookupField [(s, cv)] s2 = none := by
                simp [lookupField, hne]
              simp only [getPath, hl]
              simp [getPath_none]
            | aidx m => rfl
            | append => rfl
          | some j =>
            cases j with
            | obj fields =>
              simp only [write] at h
              obtain ⟨cv, hcv, ht2⟩ := except_map_ok h
              subst ht2
              cases ps with
              | okey s2 =>
                have hne : s2 ≠ s := fun hh => hseg (congrArg PathSeg.okey hh.symm)
                simp only [getPath, lookup_setField_other fields s s2 cv hne]
              | aidx m => rfl
              | append => rfl
            | null => simp [write] at h
            | bool b => simp [write] at h
            | num n => simp [write] at h
            | str s2 => simp [write] at h
            | arr xs => simp [write] at h
        | aidx n =>
          cases t with
          | none =>
            simp only [write] at h
            by_cases hn : n = 0
            · subst hn
              rw [if_pos rfl] at h
              obtain ⟨cv, hcv, ht2⟩ := except_map_ok h
              subst ht2
              cases ps with
              | okey s2 => rfl
              | append => rfl
              | aidx m =>
                have hm : m ≠ 0 := fun hh => hseg (congrArg PathSeg.aidx hh.symm)
                have hl : ([cv] : List Json)[m]? = none :=
                  List.getElem?_eq_none (by simpa using Nat.one_le_iff_ne_zero.mpr hm)
                simp only [getPath, hl]
                simp [getPath_none]
            · rw [if_neg hn] at h
              simp at h
          | some j =>
            cases j with
            | arr xs =>
              simp only [write] at h
              by_cases hlt : n < xs.length
              · rw [if_pos hlt] at h
                obtain ⟨cv, hcv, ht2⟩ := except_map_ok h
                subst ht2
                cases ps with
                | okey s2 => rfl
                | append => rfl
                | aidx m =>
                  have hm : n ≠ m := fun hh => hseg (congrArg PathSeg.aidx hh)
                  simp only [getPath, List.getElem?_set_ne hm]
              · rw [if_neg hlt] at h
                by_cases heq : n = xs.length
                · rw [if_pos heq] at h
                  obtain ⟨cv, hcv, ht2⟩ := except_map_ok h
                  subst ht2
                  cases ps with
                  | okey s2 => rfl
                  | append => rfl
                  | aidx m =>
                    have hm : m ≠ n := fun hh => hseg (congrArg PathSeg.aidx hh.symm)
                    simp only [getPath]
                    by_cases hmlt : m < xs.length
                    · rw [List.getElem?_append_left hmlt]
                    · have h1 : (xs ++ [cv])[m]? = none :=
                        List.getElem?_eq_none (by simp; omega)
                      have h2 : xs[m]? = none := List.getElem?_eq_none (by omega)
                      rw [h1, h2]
                · rw [if_neg heq] at h
                  simp at h
            | null => simp [write] at h
            | bool b => simp [write] at h
            | num n2 => simp [write] at h
            | str s2 => simp [write] at h
            | obj fs => simp [write] at h

theorem applyWritesFrom_site :
    ∀ (ws : List (List PathSeg × Json)) (t0 t : Json) (p : List PathSeg),
      applyWritesFrom t0 ws = .ok t → appendFree p = true →
      (∀ w ∈ ws, appendFree w.1 = true ∧
        (w.1 = p ∨ (pathPre w.1 p = false ∧ pathPre p w.1 = false))) →
      getPath (some t) p = siteFold (getPath (some t0) p) (valuesAt p ws) := by
  intro ws
  induction ws with
  | nil =>
    intro t0 t p h _ _
    simp [applyWritesFrom] at h
    subst h
    rfl
  | cons w ws ih =>
    intro t0 t p h hap hcond
    obtain ⟨q, v⟩ := w
    have hw := hcond (q, v) (List.mem_cons_self _ _)
    rcases hwr : write (some t0) q v with e | t1
    · simp only [applyWritesFrom, hwr] at h
      exact Except.noConfusion h
    · simp only [applyWritesFrom, hwr] at h
      have hcond2 : ∀ w2 ∈ ws, appendFree w2.1 = true ∧
          (w2.1 = p ∨ (pathPre w2.1 p = false ∧ pathPre p w2.1 = false)) :=
        fun w2 hw2 => hcond w2 (List.mem_cons_of_mem _ hw2)
      by_cases hq : q = p
      · subst hq
        have hsite := write_ok_getPath_same q hw.1 (some t0) v t1 hwr
        rw [ih t1 t q h hap hcond2, hsite]
        have hv : valuesAt q ((q, v) :: ws) = v :: valuesAt q ws := by
          simp [valuesAt]
        rw [hv]
        rfl
      · have hne := hw.2.resolve_left hq
        have hother := write_ok_getPath_other q (some t0) v t1 p hwr hw.1 hne.1 hne.2
        have hv : valuesAt p ((q, v) :: ws) = valuesAt p ws := by
          simp [valuesAt, hq]
        rw [ih t1 t p h hap hcond2, hother, hv]

theorem siteFold_arr :
    ∀ (vs : List Json) (acc : List Json),
      siteFold (some (.arr acc)) vs = some (.arr (acc ++ vs.flatMap flatParts)) := by
  intro vs
  induction vs with
  | nil => intro acc; simp [siteFold]
  | cons v vs ih =>
    intro acc
    show siteFold (some (collide (.arr acc) v)) vs = _
    have hc : collide (.arr acc) v = .arr (acc ++ flatParts v) := rfl
    rw [hc, ih]
    simp

theorem siteFold_none_two (v1 v2 : Json) (vs : List Json) :
    siteFold none (v1 :: v2 :: vs) =
      some (.arr ((v1 :: v2 :: vs).flatMap flatParts)) := by
  show siteFold (some (collide v1 v2)) vs = _
  have hc : collide v1 v2 = .arr (flatParts v1 ++ flatParts v2) := rfl
  rw [hc, siteFold_arr]
  simp

theorem getPath_empty_obj (p : List PathSeg) (hne : p ≠ []) :
    getPath (some (Json.obj [])) p = none := by
  cases p with
  | nil => exact absurd rfl hne
  | cons sg rest =>
    cases sg with
    | okey s => simp [getPath, lookupField, getPath_none]
    | aidx n => rfl
    | append => rfl

/-- C2 amended and Scenario B: at any output path addressed only by fixed
segments, provided every write of the call is append-free and no write lands
at a proper prefix or a proper extension of that path, a single write landing
there is stored as-is and two or more writes leave a sequence of every
written value in write order, each written sequence flattened one level; and
concretely a spec sending both `a` and `b` to output path `x` on source
`{"a": 1, "b": 2}` yields `{"x": [1, 2]}`. -/
theorem claim_C2_output_tree_invariant :
    (∀ (ws : List (List PathSeg × Json)) (t : Json) (p : List PathSeg),
        applyWrites ws = .ok t → p ≠ [] → appendFree p = true →
        (∀ w ∈ ws, appendFree w.1 = true ∧
          (w.1 = p ∨ (pathPre w.1 p = false ∧ pathPre p w.1 = false))) →
        (∀ v, valuesAt p ws = [v] → getPath (some t) p = some v) ∧
        (2 ≤ (valuesAt p ws).length →
          getPath (some t) p = some (.arr ((valuesAt p ws).flatMap flatParts)))) ∧
    transform (.obj [("a", .num 1), ("b", .num 2)])
        (.obj [("a", .str "x"), ("b", .str "x")]) =
      .ok (.obj [("x", .arr [.num 1, .num 2])]) := by
  refine ⟨?_, rfl⟩
  intro ws t p h hne hap hcond
  have hmain := applyWritesFrom_site ws (.obj []) t p h hap hcond
  rw [getPath_empty_obj p hne] at hmain
  constructor
  · intro v hv
    rw [hv] at hmain
    exact hmain
  · intro hlen
    rcases hvs : valuesAt p ws with _ | ⟨v1, _ | ⟨v2, vs⟩⟩
    · rw [hvs] at hlen
      simp at hlen
    · rw [hvs] at hlen
      simp at hlen
    · rw [hvs] at hmain
      rw [hmain, siteFold_none_two]

/-- C2 counterexample: the output tree invariant fails as universally stated.
First, with writes at nested paths (spec `{"a": "x.y", "b": "x"}` on source
`{"a": 1, "b": 2}`) exactly one write lands at path `x` (the value 2), yet the
site holds `[{"y": 1}, 2]`, not 2 stored as-is.  Second, an append-marker
write aliases a fixed index: with spec `{"a": "x.[]", "b": "x.0"}` exactly one
write lands at path `x.0` (the value 2), yet the site holds `[1, 2]`. -/
theorem claim_C2_counterexample :
    (valuesAt [PathSeg.okey "x"]
        (shift (.branch [(.lit "a", .leaf [[.lit "x", .lit "y"]]),
            (.lit "b", .leaf [[.lit "x"]])])
          (.obj [("a", .num 1), ("b", .num 2)]) []) = [.num 2] ∧
      transform (.obj [("a", .num 1), ("b", .num 2)])
          (.obj [("a", .str "x.y"), ("b", .str "x")]) =
        .ok (.obj [("x", .arr [.obj [("y", .num 1)], .num 2])]) ∧
      Json.arr [.obj [("y", .num 1)], .num 2] ≠ .num 2) ∧
    (valuesAt [PathSeg.okey "x", PathSeg.aidx 0]
        (shift (.branch [(.lit "a", .leaf [[.lit "x", .append]]),
            (.lit "b", .leaf [[.lit "x", .lit "0"]])])
          (.obj [("a", .num 1), ("b", .num 2)]) []) = [.num 2] ∧
      transform (.obj [("a", .num 1), ("b", .num 2)])
          (.obj [("a", .str "x.[]"), ("b", .str "x.0")]) =
        .ok (.obj [("x", .arr [.arr [.num 1, .num 2]])]) ∧
      Json.arr [.num 1, .num 2] ≠ .num 2) :=
  ⟨⟨rfl, rfl, fun h => nomatch h⟩, ⟨rfl, rfl, fun h => nomatch h⟩⟩

/-- C2 witness: the amended invariant applied to the Scenario B writes — two
writes at the path `x` leave the flattened two-element sequence. -/
theorem claim_C2_output_tree_invariant_witness :
    getPath (some (Json.obj [("x", .arr [.num 1, .num 2])])) [PathSeg.okey "x"] =
      some (.arr ((valuesAt [PathSeg.okey "x"]
        [([PathSeg.okey "x"], Json.num 1), ([PathSeg.okey "x"], Json.num 2)]).flatMap
          flatParts)) :=
  (claim_C2_output_tree_invariant.1
    [([PathSeg.okey "x"], Json.num 1), ([PathSeg.okey "x"], Json.num 2)]
    (Json.obj [("x", .arr [.num 1, .num 2])]) [PathSeg.okey "x"]
    rfl (by decide) rfl (by decide)).2 (by decide)

theorem plainName_parseKeyPattern {s : String} (h : plainName s = true) :
    parseKeyPattern s = .ok (.lit s) := by
  simp only [plainName, Bool.and_eq_true] at h
  have h1 := h.1.1
  rcases hp : parseKeyPattern s with e | p
  · rw [hp] at h1
    simp at h1
  · rw [hp] at h1
    cases p with
    | lit s2 =>
      simp at h1
      rw [h1]
    | affix a b => simp at h1
    | star => simp at h1
    | deepStar => simp at h1

theorem plainName_parseTemplate {s : String} (h : plainName s = true) :
    parseTemplate s = .ok [.lit s] := by
  simp only [plainName, Bool.and_eq_true] at h
  have h1 := h.1.2
  rcases hp : parseTemplate s with e | t
  · rw [hp] at h1
    simp at h1
  · rw [hp] at h1
    match t with
    | [] => simp at h1
    | [TplSeg.lit s2] =>
      simp at h1
      rw [h1]
    | [TplSeg.amp a b] => simp at h1
    | [TplSeg.append] => simp at h1
    | x :: y :: rest => cases x <;> simp at h1

theorem plainName_segOfString {s : String} (h : plainName s = true) :
    segOfString s = .okey s := by
  simp only [plainName, Bool.and_eq_true] at h
  have h1 := h.2
  rcases hp : segOfString s with s2 | n
  · rw [hp] at h1
    simp at h1
    rw [h1]
  · rw [hp] at h1
    simp at h1
  · rw [hp] at h1
    simp at h1

theorem orderPatterns_all_lit (cs : List (KeyPattern × SpecNode))
    (h : ∀ pc ∈ cs, patRank pc.1 = 0) : orderPatterns cs = cs := by
  unfold orderPatterns
  have h0 : cs.filter (fun pc => patRank pc.1 == 0) = cs :=
    List.filter_eq_self.mpr (fun pc hpc => by simp [h pc hpc])
  have hnil : ∀ r, r ≠ 0 → cs.filter (fun pc => patRank pc.1 == r) = [] := by
    intro r hr
    apply List.filter_eq_nil_iff.mpr
    intro pc hpc
    simp [h pc hpc, Ne.symm hr]
  rw [h0, hnil 1 (by omega), hnil 2 (by omega), hnil 3 (by omega)]
  simp

theorem remainingKeys_lit (k : String) (l : List String) (parts : List String)
    (hk : k ∉ l) : remainingKeys (k :: l) [(k, parts)] = l := by
  unfold remainingKeys
  rw [List.filter_cons]
  have hcond : (!([(k, parts)].any (fun m => decide (m.1 = k)))) = false := by simp
  rw [hcond]
  simp only [if_neg (by simp : ¬(false = true))]
  apply List.filter_eq_self.mpr
  intro x hx
  simp only [List.any_cons, List.any_nil, Bool.or_false, Bool.not_eq_true']
  simp only [decide_eq_false_iff_not]
  intro he
  exact hk (he ▸ hx)

theorem buildChildren_renames :
    ∀ (rs : List (String × String × Json)),
      (∀ r ∈ rs, plainName r.1 = true ∧ plainName r.2.1 = true) →
      buildChildren (rs.map (fun r => (r.1, Json.str r.2.1))) =
        .ok (rs.map (fun r => (KeyPattern.lit r.1, SpecNode.leaf [[TplSeg.lit r.2.1]]))) := by
  intro rs
  induction rs with
  | nil => intro _; rfl
  | cons r rs ih =>
    intro h
    have hr := h r (List.mem_cons_self _ _)
    have hrest := fun r2 hr2 => h r2 (List.mem_cons_of_mem _ hr2)
    simp only [List.map_cons, buildChildren, buildValue,
      plainName_parseKeyPattern hr.1, plainName_parseTemplate hr.2, ih hrest]

theorem build_renames :
    ∀ (rs : List (String × String × Json)),
      (∀ r ∈ rs, plainName r.1 = true ∧ plainName r.2.1 = true) →
      build (.obj (rs.map (fun r => (r.1, Json.str r.2.1)))) =
        .ok (.branch (rs.map (fun r => (KeyPattern.lit r.1, SpecNode.leaf [[TplSeg.lit r.2.1]])))) := by
  intro rs h
  have hb := buildChildren_renames rs h
  have hlit : ∀ pc ∈ rs.map (fun r => (KeyPattern.lit r.1, SpecNode.leaf [[TplSeg.lit r.2.1]])),
      patRank pc.1 = 0 := by
    intro pc hpc
    obtain ⟨r2, _, hpc⟩ := List.mem_map.mp hpc
    rw [← hpc]
    rfl
  show buildValue _ = _
  simp only [buildValue, hb, orderPatterns_all_lit _ hlit]

theorem shiftChildren_lit_renames :
    ∀ (rs : List (String × String × Json)) (flds : List (String × Json)),
      (rs.map (fun r => r.1)).Nodup →
      (∀ r ∈ rs, segOfString r.2.1 = .okey r.2.1) →
      (∀ r ∈ rs, lookupField flds r.1 = some r.2.2) →
      shiftChildren (rs.map (fun r => (KeyPattern.lit r.1, SpecNode.leaf [[TplSeg.lit r.2.1]])))
          (rs.map (fun r => r.1)) (.obj flds) [] =
        rs.map (fun r => ([PathSeg.okey r.2.1], r.2.2)) := by
  intro rs
  induction rs with
  | nil => intro flds _ _ _; simp [shiftChildren]
  | cons r rs ih =>
    intro flds hnd hplain hlook
    have hnd2 : (r.1 :: rs.map (fun r2 => r2.1)).Nodup := by simpa using hnd
    have hnodup := List.nodup_cons.mp hnd2
    have hmatch : matchPattern (.lit r.1) (r.1 :: rs.map (fun r2 => r2.1)) = [(r.1, [r.1])] := by
      simp [matchPattern]
    have hrem := remainingKeys_lit r.1 (rs.map (fun r2 => r2.1)) [r.1] hnodup.1
    have hget : getKey (.obj flds) r.1 = r.2.2 := by
      simp [getKey, sourceEntries, hlook r (List.mem_cons_self _ _)]
    have hleaf : shift (.leaf [[TplSeg.lit r.2.1]]) r.2.2 [[r.1]] =
        [([PathSeg.okey r.2.1], r.2.2)] := by
      simp [shift, resolveLeaf, resolveSegs, hplain r (List.mem_cons_self _ _)]
    simp only [List.map_cons, shiftChildren, hmatch, hrem, List.flatMap_cons,
      List.flatMap_nil, hget, hleaf,
      ih flds hnodup.2 (fun r2 hr2 => hplain r2 (List.mem_cons_of_mem _ hr2))
        (fun r2 hr2 => hlook r2 (List.mem_cons_of_mem _ hr2))]
    simp

theorem setField_append :
    ∀ (acc : List (String × Json)) (k : String) (v : Json),
      lookupField acc k = none → setField acc k v = acc ++ [(k, v)] := by
  intro acc k v
  induction acc with
  | nil => intro _; rfl
  | cons kv fs ih =>
    intro h
    obtain ⟨k2, o⟩ := kv
    by_cases hk : k2 = k
    · subst hk
      simp [lookupField] at h
    · simp only [lookupField, if_neg hk] at h
      simp [setField, hk, ih h]

theorem lookupField_append_none :
    ∀ (acc : List (String × Json)) (k s : String) (v : Json),
      lookupField acc s = none → s ≠ k →
      lookupField (acc ++ [(k, v)]) s = none := by
  intro acc k s v
  induction acc with
  | nil =>
    intro _ hs
    simp [lookupField, Ne.symm hs]
  | cons kv fs ih =>
    intro h hs
    obtain ⟨k2, o⟩ := kv
    by_cases hk : k2 = s
    · subst hk
      simp [lookupField] at h
    · simp only [lookupField, if_neg hk] at h
      simp [lookupField, hk, ih h hs]

theorem applyWrites_distinct_keys :
    ∀ (pairs : List (String × Json)) (acc : List (String × Json)),
      (pairs.map (fun kv => kv.1)).Nodup →
      (∀ kv ∈ pairs, lookupField acc kv.1 = none) →
      applyWritesFrom (.obj acc) (pairs.map (fun kv => ([PathSeg.okey kv.1], kv.2))) =
        .ok (.obj (acc ++ pairs)) := by
  intro pairs
  induction pairs with
  | nil => intro acc _ _; simp [applyWritesFrom]
  | cons kv pairs ih =>
    intro acc hnd hlook
    obtain ⟨k, v⟩ := kv
    have hndc : (k :: pairs.map (fun kv2 => kv2.1)).Nodup := by simpa using hnd
    have hnd2 := List.nodup_cons.mp hndc
    have hlk : lookupField acc k = none := hlook (k, v) (List.mem_cons_self _ _)
    have hwr : write (some (.obj acc)) [PathSeg.okey k] v =
        .ok (.obj (acc ++ [(k, v)])) := by
      simp [write, hlk, Except.map, setField_append acc k v hlk]
    have hlook2 : ∀ kv2 ∈ pairs, lookupField (acc ++ [(k, v)]) kv2.1 = none := by
      intro kv2 hkv2
      apply lookupField_append_none acc k kv2.1 v (hlook kv2 (List.mem_cons_of_mem _ hkv2))
      intro he
      exact hnd2.1 (he ▸ (List.mem_map.mpr ⟨kv2, hkv2, rfl⟩))
    simp only [List.map_cons, applyWritesFrom, hwr]
    rw [ih (acc ++ [(k, v)]) hnd2.2 hlook2]
    simp

theorem lookupField_triples_self :
    ∀ (rs : List (String × String × Json)), (rs.map (fun r => r.1)).Nodup →
      ∀ r ∈ rs, lookupField (rs.map (fun r2 => (r2.1, r2.2.2))) r.1 = some r.2.2 := by
  intro rs
  induction rs with
  | nil => intro _ r hr; simp at hr
  | cons r2 rs ih =>
    intro hnd r hr
    have hndc : (r2.1 :: rs.map (fun r3 => r3.1)).Nodup := by simpa using hnd
    have hnd2 := List.nodup_cons.mp hndc
    rcases List.mem_cons.mp hr with he | hm
    · subst he
      simp [lookupField]
    · have hne : r2.1 ≠ r.1 := by
        intro he
        exact hnd2.1 (he ▸ (List.mem_map.mpr ⟨r, hm, rfl⟩))
      simp only [List.map_cons, lookupField, if_neg hne]
      exact ih hnd2.2 r hm

theorem transform_flat_renames :
    ∀ (rs : List (String × String × Json)),
      (rs.map (fun r => r.1)).Nodup →
      (rs.map (fun r => r.2.1)).Nodup →
      (∀ r ∈ rs, plainName r.1 = true ∧ plainName r.2.1 = true) →
      transform (.obj (rs.map (fun r => (r.1, r.2.2))))
          (.obj (rs.map (fun r => (r.1, Json.str r.2.1)))) =
        .ok (.obj (rs.map (fun r => (r.2.1, r.2.2)))) := by
  intro rs hk ht hplain
  have hkeys : (rs.map (fun r => (r.1, r.2.2))).map (fun kv => kv.1) =
      rs.map (fun r => r.1) := by
    rw [List.map_map]
    rfl
  have hshift : shift (.branch (rs.map (fun r =>
        (KeyPattern.lit r.1, SpecNode.leaf [[TplSeg.lit r.2.1]]))))
      (.obj (rs.map (fun r => (r.1, r.2.2)))) [] =
        rs.map (fun r => ([PathSeg.okey r.2.1], r.2.2)) := by
    show shiftChildren _ ((sourceEntries _).map Prod.fst) _ [] = _
    have hse : sourceEntries (.obj (rs.map (fun r => (r.1, r.2.2)))) =
        rs.map (fun r => (r.1, r.2.2)) := rfl
    rw [hse, show (rs.map (fun r => (r.1, r.2.2))).map Prod.fst =
        rs.map (fun r => r.1) from by rw [List.map_map]; rfl]
    exact shiftChildren_lit_renames rs _ hk
      (fun r hr => plainName_segOfString (hplain r hr).2)
      (lookupField_triples_self rs hk)
  have happ : applyWrites (rs.map (fun r => ([PathSeg.okey r.2.1], r.2.2))) =
      .ok (.obj (rs.map (fun r => (r.2.1, r.2.2)))) := by
    have hpairs : rs.map (fun r => ([PathSeg.okey r.2.1], r.2.2)) =
        (rs.map (fun r => (r.2.1, r.2.2))).map (fun kv => ([PathSeg.okey kv.1], kv.2)) := by
      rw [List.map_map]
      rfl
    have hnd : ((rs.map (fun r => (r.2.1, r.2.2))).map (fun kv => kv.1)).Nodup := by
      rw [List.map_map]
      exact ht
    rw [hpairs]
    have := applyWrites_distinct_keys (rs.map (fun r => (r.2.1, r.2.2))) [] hnd
      (fun kv _ => rfl)
    simpa [applyWrites] using this
  simp only [transform, build_renames rs hplain, hshift, happ]

/-- C7 counterexample: the round-trip identity fails as universally stated —
the spec `{"a": "b"}` is a literal 1:1 rename, yet on the source `{"c": 2}`
(whose field the spec does not mention) the transform drops the field, and
the inverse spec `{"b": "a"}` cannot restore it: the round trip returns the
empty object, which is not deep-equal to the source. -/
theorem claim_C7_counterexample :
    transform (.obj [("c", .num 2)]) (.obj [("a", .str "b")]) = .ok (.obj []) ∧
    transform (.obj []) (.obj [("b", .str "a")]) = .ok (.obj []) ∧
    Json.obj [] ≠ .obj [("c", .num 2)] :=
  ⟨rfl, rfl, fun h => nomatch h⟩

/-- C7 amended: for every flat spec of literal 1:1 renames — duplicate-free
plain literal keys mapped to duplicate-free plain (non-numeric) output keys —
whose patterns cover exactly the keys of the source object in order,
transforming the source and then applying the inverse rename spec to the
result returns exactly the original document. -/
theorem claim_C7_roundtrip :
    ∀ (rs : List (String × String × Json)),
      (rs.map (fun r => r.1)).Nodup →
      (rs.map (fun r => r.2.1)).Nodup →
      (∀ r ∈ rs, plainName r.1 = true ∧ plainName r.2.1 = true) →
      transform (.obj (rs.map (fun r => (r.1, r.2.2))))
          (.obj (rs.map (fun r => (r.1, Json.str r.2.1)))) =
        .ok (.obj (rs.map (fun r => (r.2.1, r.2.2)))) ∧
      transform (.obj (rs.map (fun r => (r.2.1, r.2.2))))
          (.obj (rs.map (fun r => (r.2.1, Json.str r.1)))) =
        .ok (.obj (rs.map (fun r => (r.1, r.2.2)))) := by
  intro rs hk ht hplain
  constructor
  · exact transform_flat_renames rs hk ht hplain
  · have h2 := transform_flat_renames (rs.map (fun r => (r.2.1, r.1, r.2.2)))
      (by rw [List.map_map]; exact ht)
      (by rw [List.map_map]; exact hk)
      (by
        intro r2 hr2
        obtain ⟨r, hr, he⟩ := List.mem_map.mp hr2
        subst he
        exact ⟨(hplain r hr).2, (hplain r hr).1⟩)
    rw [List.map_map, List.map_map, List.map_map] at h2
    exact h2

/-- C7 witness: the amended round trip on a two-field source, there and back
exactly. -/
theorem claim_C7_roundtrip_witness :
    transform (.obj [("a", .num 1), ("c", .str "s")])
        (.obj [("a", .str "x"), ("c", .str "y")]) =
      .ok (.obj [("x", .num 1), ("y", .str "s")]) ∧
    transform (.obj [("x", .num 1), ("y", .str "s")])
        (.obj [("x", .str "a"), ("y", .str "c")]) =
      .ok (.obj [("a", .num 1), ("c", .str "s")]) :=
  claim_C7_roundtrip [("a", "x", .num 1), ("c", "y", .str "s")]
    (by decide) (by decide) (by decide)
